import Mathlib

/-!
Verification of the questionnaire-processing pipeline (`hw5.py`,
class `QuestionnaireAnalysis`) against its natural-language specification.

The embedding models the pandas `DataFrame` held in `self.data` as a list of
rows.  Each row carries the columns the specified core uses: `age`
(nullable numeric), `gender` (nullable categorical string), `email`
(nullable, possibly non-string cell) and the five question answers `q1..q5`
(nullable numerics, modelled as a list of `Option ℚ` cells).  Missing values
(`NaN` / `None`) are modelled as `none`.  Operations that can raise a Python
exception are embedded with `Except String` results.
-/

namespace HW5

/-- An `email` cell of the DataFrame: a string, a null (`None`/`NaN`), or some
other non-string value.  Python's `"@" not in email` raises `TypeError` on the
latter two, which the embedding surfaces through `validate_email_cell`. -/
inductive EmailCell where
  | str : List Char → EmailCell
  | null : EmailCell
  | nonstr : EmailCell
deriving DecidableEq, Repr

/-- One subject row of the dataset. `qs` holds the cells of columns q1..q5
in order (length 5 in every real dataset; theorems that need the width
assume it explicitly). -/
structure Row where
  age : Option ℚ
  gender : Option String
  email : EmailCell
  qs : List (Option ℚ)
deriving DecidableEq, Repr

/-! ### Validator (`_validate_email`, `remove_rows_without_mail`) -/

/-- Embeds Python `email.isascii()`: every character has code point < 128. -/
def isascii (s : List Char) : Bool :=
  s.all (fun c => c.toNat < 128)

/-- The character at position `email.find("@") + 1`, i.e. the character
immediately after the first `'@'`, if any.  Embeds the source's
`email[email.find("@") + 1]` (which is only evaluated on strings containing
`'@'` and not ending in `'@'`, so the index is in range there). -/
def charAfterAt : List Char → Option Char
  | [] => none
  | c :: t => if c = '@' then t.head? else charAfterAt t

/-- Embeds `_validate_email` (src/hw5.py:59-84): the six short-circuit checks,
in source order, on an email that is an actual string. -/
def validate_email (s : List Char) : Bool :=
  if '@' ∉ s ∨ '.' ∉ s then false
  else if s.head? = some '@' ∨ s.getLast? = some '@' then false
  else if s.head? = some '.' ∨ s.getLast? = some '.' then false
  else if ¬ isascii s then false
  else if s.count '@' ≠ 1 then false
  else if charAfterAt s = some '.' then false
  else true

/-- Embeds the element test of `_validate_email` as applied by
`remove_rows_without_mail` to an arbitrary `email` cell.  The source runs
`"@" not in email`; Python raises `TypeError` when the cell is `None`/`NaN`
or any other non-string value, so only the string case yields a Bool. -/
def validate_email_cell : EmailCell → Except String Bool
  | EmailCell.str s => Except.ok (validate_email s)
  | EmailCell.null => Except.error "TypeError: argument of type NoneType is not iterable"
  | EmailCell.nonstr => Except.error "TypeError: argument of type float is not iterable"

/-- Embeds `remove_rows_without_mail` (src/hw5.py:45-57):
`self.data["email"].apply(_validate_email)` followed by boolean-mask row
selection with index reset.  A `TypeError` raised by the validator on any
cell propagates out of `apply`, so the whole operation errors. -/
def remove_rows_without_mail : List Row → Except String (List Row)
  | [] => Except.ok []
  | r :: t =>
    match validate_email_cell r.email with
    | Except.error e => Except.error e
    | Except.ok b =>
      match remove_rows_without_mail t with
      | Except.error e => Except.error e
      | Except.ok t' => Except.ok (if b then r :: t' else t')

/-! ### Null locator, imputer, scorer, aggregator -/

/-- NaN-skipping row mean of a list of present values, as produced by
`DataFrame.mean(axis=1)`: undefined (`NaN`, modelled `none`) on an empty
list, otherwise sum divided by count. -/
def meanList (l : List ℚ) : Option ℚ :=
  if l.isEmpty then none else some (l.sum / (l.length : ℚ))

/-- The skipna mean of one row of q-cells: mean of the non-missing values,
`none` when all cells are missing. -/
def rowMean (qs : List (Option ℚ)) : Option ℚ :=
  meanList (qs.filterMap id)

/-- Embeds one row of `_fill_na_with_mean` (src/hw5.py:106-122): the
`grades_df.where(grades_df.notnull(), means_df)` swap keeps present cells and
takes the row mean for missing cells (which stays missing when the row mean
is itself undefined). -/
def fillRow (qs : List (Option ℚ)) : List (Option ℚ) :=
  qs.map (fun c => match c with | some v => some v | none => rowMean qs)

/-- Embeds `_fill_na_with_mean` on the q1..q5 grade table. -/
def fill_na_with_mean_df (g : List (List (Option ℚ))) : List (List (Option ℚ)) :=
  g.map fillRow

/-- Embeds `relevant_columns.isna().any(axis=1)` for one row. -/
def hasNull (qs : List (Option ℚ)) : Bool :=
  qs.any (fun c => c.isNone)

/-- Positions (offset by the first argument) of the rows whose mask bit is
set, in index order; helper for `find_rows_with_nulls`. -/
def findNullsFrom : ℕ → List Row → List ℕ
  | _, [] => []
  | i, r :: t =>
    if hasNull r.qs then i :: findNullsFrom (i + 1) t
    else findNullsFrom (i + 1) t

/-- Embeds `_find_rows_with_nulls` (src/hw5.py:86-104): the positional
indices (on the contiguous zero-based index) of rows with at least one
missing value among q1..q5, read off the boolean mask in index order. -/
def find_rows_with_nulls (ds : List Row) : List ℕ :=
  findNullsFrom 0 ds

/-- Embeds the public `fill_na_with_mean` (src/hw5.py:126-141): the null-row
indices are computed on the stored data first, the grade columns of a copy
are replaced by the imputed grade table, and both are returned; `self.data`
itself is never written. -/
def fill_na_with_mean (ds : List Row) : List Row × List ℕ :=
  (ds.map (fun r => { r with qs := fillRow r.qs }), find_rows_with_nulls ds)

/-- Truncation toward zero of a rational, the C-style cast numpy applies in
`astype("uint8")` to a finite float. -/
def ratTrunc (q : ℚ) : ℤ :=
  if 0 ≤ q then ⌊q⌋ else -⌊-q⌋

/-- The `astype("uint8")` value of a finite float: truncate toward zero and
wrap into the 8-bit unsigned range. -/
def uint8Cast (q : ℚ) : ℕ :=
  (ratTrunc q % 256).toNat

/-- Embeds `question_columns.isna().sum(axis=1)` for one row. -/
def countNans (qs : List (Option ℚ)) : ℕ :=
  (qs.filter (fun c => c.isNone)).length

/-- Embeds `score_subjects` (src/hw5.py:143-170).  The score column is
`question_columns.mean(axis=1).astype("uint8").astype("UInt8")`; pandas
raises `IntCastingNaNError` (`Cannot convert non-finite values (NA or inf)
to integer`) in `astype("uint8")` as soon as any row mean is `NaN`, i.e. as
soon as any row has all q-cells missing.  Otherwise every row gets the
truncated mean, and rows with more than `maximal_nans_per_sub` missing
q-cells are then overwritten with `pd.NA` (modelled `none`). -/
def score_subjects (maximal : ℤ) (ds : List Row) : Except String (List (Row × Option ℕ)) :=
  if ds.any (fun r => (rowMean r.qs).isNone) then
    Except.error "Cannot convert non-finite values (NA or inf) to integer"
  else
    Except.ok (ds.map (fun r =>
      (r, if (countNans r.qs : ℤ) > maximal then none
          else (rowMean r.qs).map uint8Cast)))

/-- Embeds `self.data.dropna(subset=["age"])`. -/
def dropna_age (ds : List Row) : List Row :=
  ds.filter (fun r => r.age.isSome)

/-- Embeds membership of a row in the group with key `k = (gender, age>40)`
under `groupby([None, lambda x: x > 40], level=[1, 2])`: pandas groups by
the gender level value and the mapped age level, and (with the default
`dropna=True`) a row whose gender is missing belongs to no group. -/
def inBucket (k : String × Bool) (r : Row) : Bool :=
  match r.gender, r.age with
  | some g, some a => decide (g = k.1) && (decide (a > 40) == k.2)
  | _, _ => false

/-- Per-question skipna means of q1..q5 over the rows of one group, as
computed by `grouped.mean()`. -/
def bucketMeans (b : List Row) : List (Option ℚ) :=
  (List.range 5).map (fun j => meanList (b.filterMap (fun r => (r.qs.get? j).join)))

/-- Embeds `correlate_gender_age` (src/hw5.py:172-184) as the keyed lookup of
the resulting grouped table: rows with missing age are dropped, the rest are
grouped by `(gender, age > 40)`, and each observed key maps to the
per-question means of its group; unobserved keys are absent (`none`). -/
def correlate_gender_age (ds : List Row) (k : String × Bool) : Option (List (Option ℚ)) :=
  let b := (dropna_age ds).filter (inBucket k)
  if b.isEmpty then none else some (bucketMeans b)

/-- Grouping key of a single row as the specification describes it: the pair
of the exact gender value and the predicate `age > 40`, defined only when
both demographics are present. -/
def rowKey (r : Row) : Option (String × Bool) :=
  match r.gender, r.age with
  | some g, some a => some (g, decide (a > 40))
  | _, _ => none

/-- Dataset of one subject whose five answers are all missing. -/
def exRowAllNa : Row :=
  { age := none, gender := none, email := EmailCell.null,
    qs := [none, none, none, none, none] }

/-- The row `[2, 4, 6, 8, NA]` from the specification's scorer example. -/
def exRow2468 : Row :=
  { age := none, gender := none, email := EmailCell.null,
    qs := [some 2, some 4, some 6, some 8, none] }

/-- A subject with a null email cell. -/
def exRowNullEmail : Row :=
  { age := none, gender := none, email := EmailCell.null, qs := [] }

/-- A subject with present age 50 but missing gender. -/
def exRowNoGender : Row :=
  { age := some 50, gender := none, email := EmailCell.null,
    qs := [some 10, some 10, some 10, some 10, some 10] }

/-- Subject gender `"F"`, age 30, all answers 10 (specification example). -/
def exRowF30 : Row :=
  { age := some 30, gender := some "F", email := EmailCell.null,
    qs := [some 10, some 10, some 10, some 10, some 10] }

/-- Subject gender `"F"`, age 50, all answers 20 (specification example). -/
def exRowF50 : Row :=
  { age := some 50, gender := some "F", email := EmailCell.null,
    qs := [some 20, some 20, some 20, some 20, some 20] }

/-! ### Theorems -/

/-- Charwise ASCII check agrees with the `∀`-form. -/
theorem isascii_iff (s : List Char) :
    isascii s = true ↔ ∀ c ∈ s, c.toNat < 128 := by
  simp [isascii, List.all_eq_true]

theorem get?_zero_eq_head {α : Type} (l : List α) : l.get? 0 = l.head? := by
  cases l <;> rfl

/-- On a string with exactly one `'@'`, the source's "character after the
first `'@'` is `'.'`" test agrees with the positional condition quantified
over every occurrence of `'@'`. -/
theorem charAfterAt_spec (s : List Char) (h : s.count '@' = 1) :
    charAfterAt s ≠ some '.' ↔
      ∀ i, s.get? i = some '@' → s.get? (i + 1) ≠ some '.' := by
  induction s with
  | nil => simp at h
  | cons c t ih =>
    by_cases hc : c = '@'
    · subst hc
      have ht : t.count '@' = 0 := by
        have h' := h
        rw [List.count_cons_self] at h'
        omega
      have hnot : '@' ∉ t := List.count_eq_zero.mp ht
      constructor
      · intro hne i hi hdot
        cases i with
        | zero =>
          apply hne
          have hstep : charAfterAt ('@' :: t) = t.head? := by
            simp [charAfterAt]
          rw [hstep, ← get?_zero_eq_head]
          simpa using hdot
        | succ j =>
          have hj : t.get? j = some '@' := by simpa using hi
          exact hnot (List.get?_mem hj)
      · intro hall hEq
        have hstep : charAfterAt ('@' :: t) = t.head? := by
          simp [charAfterAt]
        rw [hstep] at hEq
        exact hall 0 rfl (by rw [List.get?_cons_succ, get?_zero_eq_head]; exact hEq)
    · have ht : t.count '@' = 1 := by
        have h' := h
        rw [List.count_cons_of_ne (fun hEq => hc hEq.symm)] at h'
        exact h'
      have hstep : charAfterAt (c :: t) = charAfterAt t := by
        simp [charAfterAt, hc]
      rw [hstep, ih ht]
      constructor
      · intro hall i hi hdot
        cases i with
        | zero =>
          apply hc
          simpa using hi
        | succ j =>
          exact hall j (by simpa using hi) (by simpa using hdot)
      · intro hall i hi hdot
        exact hall (i + 1) (by simpa using hi) (by simpa using hdot)

/-- Source-shaped characterisation of `validate_email`: the six checks read
off the code, with the ASCII and after-at conditions still in their code
form. -/
theorem validate_email_eq_true_iff (s : List Char) :
    validate_email s = true ↔
      (('@' ∈ s ∧ '.' ∈ s) ∧
       (s.head? ≠ some '@' ∧ s.getLast? ≠ some '@') ∧
       (s.head? ≠ some '.' ∧ s.getLast? ≠ some '.') ∧
       isascii s = true ∧
       s.count '@' = 1 ∧
       charAfterAt s ≠ some '.') := by
  unfold validate_email
  split_ifs with h1 h2 h3 h4 h5 h6 <;> simp_all <;> tauto

/-- C1: `_validate_email` returns `True` exactly when all six conditions hold:
contains `'@'` and `'.'`; does not start or end with `'@'`; does not start or
end with `'.'`; all characters 7-bit ASCII; exactly one `'@'`; and the
character immediately following the `'@'` is not `'.'`. -/
theorem validate_email_iff (s : List Char) :
    validate_email s = true ↔
      (('@' ∈ s ∧ '.' ∈ s) ∧
       (s.head? ≠ some '@' ∧ s.getLast? ≠ some '@') ∧
       (s.head? ≠ some '.' ∧ s.getLast? ≠ some '.') ∧
       (∀ c ∈ s, c.toNat < 128) ∧
       s.count '@' = 1 ∧
       (∀ i, s.get? i = some '@' → s.get? (i + 1) ≠ some '.')) := by
  rw [validate_email_eq_true_iff]
  constructor
  · rintro ⟨a, b, c, d, e, f⟩
    exact ⟨a, b, c, (isascii_iff s).mp d, e, (charAfterAt_spec s e).mp f⟩
  · rintro ⟨a, b, c, d, e, f⟩
    exact ⟨a, b, c, (isascii_iff s).mpr d, e, (charAfterAt_spec s e).mpr f⟩

theorem meanList_eq_none_iff (l : List ℚ) : meanList l = none ↔ l = [] := by
  unfold meanList
  split <;> rename_i h <;> simp_all

theorem rowMean_eq_none_iff (qs : List (Option ℚ)) :
    rowMean qs = none ↔ ∀ c ∈ qs, c = none := by
  rw [rowMean, meanList_eq_none_iff, List.filterMap_eq_nil_iff]
  simp

theorem map_congr_mem {α β : Type} (l : List α) (f g : α → β)
    (h : ∀ a ∈ l, f a = g a) : l.map f = l.map g := by
  induction l with
  | nil => rfl
  | cons a t ih =>
    simp only [List.map_cons]
    rw [h a (by simp), ih (fun x hx => h x (by simp [hx]))]

theorem map_eq_self_of_eq {α : Type} (l : List α) (f : α → α)
    (h : ∀ a ∈ l, f a = a) : l.map f = l := by
  rw [map_congr_mem l f id h, List.map_id]

/-- C3: `_fill_na_with_mean` keeps every non-missing q-cell, replaces every
missing q-cell of a row by that row's skipna mean of q1..q5, and leaves an
all-missing row entirely missing (the undefined mean propagates as missing);
rows are processed positionally and independently. -/
theorem fill_na_with_mean_df_spec (g : List (List (Option ℚ))) :
    (fill_na_with_mean_df g).length = g.length ∧
    ∀ i qs, g.get? i = some qs →
      (fill_na_with_mean_df g).get? i = some (fillRow qs) ∧
      (∀ j v, qs.get? j = some (some v) → (fillRow qs).get? j = some (some v)) ∧
      (∀ j, qs.get? j = some none → (fillRow qs).get? j = some (rowMean qs)) ∧
      ((∀ c ∈ qs, c = none) → fillRow qs = qs) := by
  constructor
  · simp [fill_na_with_mean_df]
  · intro i qs hqs
    refine ⟨?_, ?_, ?_, ?_⟩
    · rw [fill_na_with_mean_df, List.get?_map, hqs]
      rfl
    · intro j v hj
      rw [fillRow, List.get?_map, hj]
      rfl
    · intro j hj
      rw [fillRow, List.get?_map, hj]
      rfl
    · intro hall
      have hmean : rowMean qs = none := (rowMean_eq_none_iff qs).mpr hall
      apply map_eq_self_of_eq
      intro c hc
      rw [hall c hc, hmean]

/-- C3 witness: on the row `[some 2, none]` the theorem's hypotheses hold at
index 0 and its conclusion evaluates. -/
theorem fill_na_with_mean_df_spec_witness :
    ([[some (2 : ℚ), none]].get? 0 = some [some (2 : ℚ), none]) ∧
    ((fill_na_with_mean_df [[some (2 : ℚ), none]]).get? 0 =
      some (fillRow [some (2 : ℚ), none]) ∧
     (∀ j v, [some (2 : ℚ), none].get? j = some (some v) →
        (fillRow [some (2 : ℚ), none]).get? j = some (some v)) ∧
     (∀ j, [some (2 : ℚ), none].get? j = some none →
        (fillRow [some (2 : ℚ), none]).get? j = some (rowMean [some (2 : ℚ), none])) ∧
     ((∀ c ∈ [some (2 : ℚ), none], c = none) →
        fillRow [some (2 : ℚ), none] = [some (2 : ℚ), none])) :=
  ⟨rfl, (fill_na_with_mean_df_spec [[some (2 : ℚ), none]]).2 0 [some (2 : ℚ), none] rfl⟩

theorem fillRow_isSome (qs : List (Option ℚ)) (h : ∃ c ∈ qs, c.isSome = true) :
    ∀ c ∈ fillRow qs, ∃ v, c = some v := by
  have hm : ∃ m, rowMean qs = some m := by
    rcases h with ⟨c, hc, hs⟩
    cases hmn : rowMean qs with
    | none =>
      exfalso
      have := (rowMean_eq_none_iff qs).mp hmn c hc
      simp [this] at hs
    | some m => exact ⟨m, rfl⟩
  rcases hm with ⟨m, hm⟩
  intro c hc
  rcases List.mem_map.mp hc with ⟨c0, _, rfl⟩
  cases c0 with
  | none => exact ⟨m, by simp [hm]⟩
  | some v => exact ⟨v, rfl⟩

theorem fillRow_fillRow (qs : List (Option ℚ)) (h : ∃ c ∈ qs, c.isSome = true) :
    fillRow (fillRow qs) = fillRow qs := by
  have hall := fillRow_isSome qs h
  show (fillRow qs).map
      (fun c => match c with | some v => some v | none => rowMean (fillRow qs)) =
    fillRow qs
  apply map_eq_self_of_eq
  intro c hc
  rcases hall c hc with ⟨v, rfl⟩
  rfl

/-- C9: the imputation is idempotent on any grade table in which no row is
entirely missing — after one pass no missing cell remains, so a second pass
changes nothing. -/
theorem fill_na_with_mean_df_idempotent (g : List (List (Option ℚ)))
    (h : ∀ qs ∈ g, ∃ c ∈ qs, c.isSome = true) :
    fill_na_with_mean_df (fill_na_with_mean_df g) = fill_na_with_mean_df g := by
  unfold fill_na_with_mean_df
  rw [List.map_map]
  apply map_congr_mem
  intro qs hqs
  exact fillRow_fillRow qs (h qs hqs)

/-- C9 witness: the hypothesis and conclusion at the concrete grade table
`[[some 2, none]]`. -/
theorem fill_na_with_mean_df_idempotent_witness :
    (∀ qs ∈ [[some (2 : ℚ), none]], ∃ c ∈ qs, c.isSome = true) ∧
    fill_na_with_mean_df (fill_na_with_mean_df [[some (2 : ℚ), none]]) =
      fill_na_with_mean_df [[some (2 : ℚ), none]] :=
  ⟨by decide, fill_na_with_mean_df_idempotent [[some (2 : ℚ), none]] (by decide)⟩

theorem mem_findNullsFrom (t : List Row) :
    ∀ i j, j ∈ findNullsFrom i t ↔
      ∃ m r, t.get? m = some r ∧ j = i + m ∧ hasNull r.qs = true := by
  induction t with
  | nil =>
    intro i j
    simp [findNullsFrom]
  | cons r t ih =>
    intro i j
    by_cases h : hasNull r.qs = true
    · rw [findNullsFrom, if_pos h]
      rw [List.mem_cons, ih]
      constructor
      · rintro (rfl | ⟨m, r', hm, rfl, hr'⟩)
        · exact ⟨0, r, rfl, by omega, h⟩
        · exact ⟨m + 1, r', by simpa using hm, by omega, hr'⟩
      · rintro ⟨m, r', hm, rfl, hr'⟩
        cases m with
        | zero =>
          left
          omega
        | succ k =>
          right
          exact ⟨k, r', by simpa using hm, by omega, hr'⟩
    · rw [findNullsFrom, if_neg h]
      rw [ih]
      constructor
      · rintro ⟨m, r', hm, rfl, hr'⟩
        exact ⟨m + 1, r', by simpa using hm, by omega, hr'⟩
      · rintro ⟨m, r', hm, rfl, hr'⟩
        cases m with
        | zero =>
          exfalso
          have hrr : r = r' := by simpa using hm
          subst hrr
          exact h hr'
        | succ k =>
          exact ⟨k, r', by simpa using hm, by omega, hr'⟩

theorem findNullsFrom_sorted (t : List Row) :
    ∀ i, (findNullsFrom i t).Pairwise (· < ·) := by
  induction t with
  | nil =>
    intro i
    simp [findNullsFrom]
  | cons r t ih =>
    intro i
    by_cases h : hasNull r.qs = true
    · rw [findNullsFrom, if_pos h]
      refine List.Pairwise.cons ?_ (ih (i + 1))
      intro j hj
      rcases (mem_findNullsFrom t (i + 1) j).mp hj with ⟨m, r', -, rfl, -⟩
      omega
    · rw [findNullsFrom, if_neg h]
      exact ih (i + 1)

/-- C7: `_find_rows_with_nulls` returns strictly ascending, duplicate-free
indices, and an index is returned exactly when that row has at least one
missing value among q1..q5.  The embedding is a pure function of the
dataset, matching the read-only source (`isna`, boolean masking). -/
theorem find_rows_with_nulls_spec (ds : List Row) :
    (find_rows_with_nulls ds).Pairwise (· < ·) ∧
    (find_rows_with_nulls ds).Nodup ∧
    ∀ i, i ∈ find_rows_with_nulls ds ↔
      ∃ r, ds.get? i = some r ∧ ∃ c ∈ r.qs, c = none := by
  have hsorted := findNullsFrom_sorted ds 0
  refine ⟨hsorted, hsorted.imp (fun h => Nat.ne_of_lt h), ?_⟩
  intro i
  rw [find_rows_with_nulls, mem_findNullsFrom]
  constructor
  · rintro ⟨m, r, hm, rfl, hr⟩
    refine ⟨r, by simpa using hm, ?_⟩
    rcases List.any_eq_true.mp hr with ⟨c, hc, hnone⟩
    exact ⟨c, hc, by simpa using hnone⟩
  · rintro ⟨r, hm, c, hc, rfl⟩
    exact ⟨i, r, hm, by omega, List.any_eq_true.mpr ⟨none, hc, rfl⟩⟩

/-- C8: the public `fill_na_with_mean` returns the imputed table together
with the null-row indices of the pre-imputation data; the imputed table has
the same rows in the same order with all columns other than q1..q5
unchanged.  The embedding is a pure function (the source writes only into
`self.data.copy()`), so the stored dataset is untouched. -/
theorem fill_na_with_mean_spec (ds : List Row) :
    (fill_na_with_mean ds).2 = find_rows_with_nulls ds ∧
    (fill_na_with_mean ds).1.length = ds.length ∧
    ∀ i r, ds.get? i = some r →
      ∃ r', (fill_na_with_mean ds).1.get? i = some r' ∧
        r'.age = r.age ∧ r'.gender = r.gender ∧ r'.email = r.email ∧
        r'.qs = fillRow r.qs := by
  refine ⟨rfl, by simp [fill_na_with_mean], ?_⟩
  intro i r hr
  refine ⟨{ r with qs := fillRow r.qs }, ?_, rfl, rfl, rfl, rfl⟩
  have hfst : (fill_na_with_mean ds).1 = ds.map (fun r => { r with qs := fillRow r.qs }) := rfl
  rw [hfst, List.get?_map, hr]
  rfl

/-- C8 witness: the theorem applied to the one-row dataset `[exRow2468]` at
index 0. -/
theorem fill_na_with_mean_spec_witness :
    ([exRow2468].get? 0 = some exRow2468) ∧
    ∃ r', (fill_na_with_mean [exRow2468]).1.get? 0 = some r' ∧
      r'.age = exRow2468.age ∧ r'.gender = exRow2468.gender ∧
      r'.email = exRow2468.email ∧ r'.qs = fillRow exRow2468.qs :=
  ⟨rfl, (fill_na_with_mean_spec [exRow2468]).2.2 0 exRow2468 rfl⟩

theorem rowMean_isSome (qs : List (Option ℚ)) (h : ∃ c ∈ qs, c.isSome = true) :
    ∃ m, rowMean qs = some m := by
  cases hmn : rowMean qs with
  | none =>
    rcases h with ⟨c, hc, hs⟩
    have hcn := (rowMean_eq_none_iff qs).mp hmn c hc
    simp [hcn] at hs
  | some m => exact ⟨m, rfl⟩

theorem meanList_bounds (l : List ℚ) (hne : l ≠ [])
    (h : ∀ x ∈ l, 0 ≤ x ∧ x ≤ 255) :
    ∀ m, meanList l = some m → 0 ≤ m ∧ m ≤ 255 := by
  intro m hm
  have hlen : 0 < l.length := List.length_pos.mpr hne
  have hlenQ : (0 : ℚ) < (l.length : ℚ) := by exact_mod_cast hlen
  have hsum0 : 0 ≤ l.sum := List.sum_nonneg (fun x hx => (h x hx).1)
  have hsum255 : l.sum ≤ (l.length : ℚ) * 255 := by
    have hs := List.sum_le_card_nsmul l 255 (fun x hx => (h x hx).2)
    simpa [nsmul_eq_mul] using hs
  have hm' : m = l.sum / (l.length : ℚ) := by
    unfold meanList at hm
    rw [if_neg (by simpa using hne)] at hm
    exact (Option.some_inj.mp hm).symm
  subst hm'
  constructor
  · exact div_nonneg hsum0 (le_of_lt hlenQ)
  · rw [div_le_iff hlenQ]
    linarith

theorem uint8Cast_eq_floor (q : ℚ) (h0 : 0 ≤ q) (h255 : q ≤ 255) :
    uint8Cast q = Int.toNat ⌊q⌋ := by
  unfold uint8Cast ratTrunc
  rw [if_pos h0]
  have hf0 : (0 : ℤ) ≤ ⌊q⌋ := Int.floor_nonneg.mpr h0
  have hf255 : ⌊q⌋ < 256 := by
    have h1 : ⌊q⌋ ≤ ⌊(255 : ℚ)⌋ := Int.floor_mono h255
    have h2 : ⌊(255 : ℚ)⌋ = 255 := by norm_num
    omega
  rw [Int.emod_eq_of_lt hf0 hf255]

/-- C2 (amended): on any dataset in which every row has at least one
answered question — otherwise `score_subjects` raises instead of producing
scores, see `score_subjects_error_on_all_missing` — and whose answers lie
in the expected unsigned-8-bit score scale, `score_subjects` succeeds, gives
every row the floor (= truncation toward negative infinity, here equal to
the C truncation toward zero) of the skipna mean of its q-cells as score,
and overwrites the score with the missing marker exactly on the rows whose
missing count strictly exceeds `maximal_nans_per_sub`. -/
theorem score_subjects_spec (maximal : ℤ) (ds : List Row)
    (hpres : ∀ r ∈ ds, ∃ c ∈ r.qs, c.isSome = true)
    (hrange : ∀ r ∈ ds, ∀ q : ℚ, some q ∈ r.qs → 0 ≤ q ∧ q ≤ 255) :
    ∃ out, score_subjects maximal ds = Except.ok out ∧ out.length = ds.length ∧
      ∀ i r, ds.get? i = some r →
        ∃ m : ℚ, rowMean r.qs = some m ∧
          out.get? i = some (r,
            if (countNans r.qs : ℤ) > maximal then none
            else some (Int.toNat ⌊m⌋)) := by
  have hguard : (ds.any (fun r => (rowMean r.qs).isNone)) = false := by
    cases hany : ds.any (fun r => (rowMean r.qs).isNone) with
    | false => rfl
    | true =>
      exfalso
      rcases List.any_eq_true.mp hany with ⟨r, hr, hnone⟩
      rcases rowMean_isSome r.qs (hpres r hr) with ⟨m, hm⟩
      rw [hm] at hnone
      simp at hnone
  refine ⟨ds.map (fun r =>
      (r, if (countNans r.qs : ℤ) > maximal then none
          else (rowMean r.qs).map uint8Cast)), ?_, by simp, ?_⟩
  · rw [score_subjects, if_neg (by simp [hguard])]
  · intro i r hr
    have hrmem : r ∈ ds := List.get?_mem hr
    rcases rowMean_isSome r.qs (hpres r hrmem) with ⟨m, hm⟩
    have hbounds : 0 ≤ m ∧ m ≤ 255 := by
      apply meanList_bounds (r.qs.filterMap id) ?_ ?_ m hm
      · intro hnil
        rw [rowMean, hnil] at hm
        simp [meanList] at hm
      · intro x hx
        rcases List.mem_filterMap.mp hx with ⟨c, hc, hcx⟩
        simp only [id] at hcx
        subst hcx
        exact hrange r hrmem x hc
    refine ⟨m, hm, ?_⟩
    rw [List.get?_map, hr]
    have hcast : (rowMean r.qs).map uint8Cast = some (Int.toNat ⌊m⌋) := by
      rw [hm]
      show some (uint8Cast m) = some (Int.toNat ⌊m⌋)
      rw [uint8Cast_eq_floor m hbounds.1 hbounds.2]
    show some (r, if (countNans r.qs : ℤ) > maximal then none
        else (rowMean r.qs).map uint8Cast) =
      some (r, if (countNans r.qs : ℤ) > maximal then none
        else some (Int.toNat ⌊m⌋))
    rw [hcast]

/-- C2 counterexample: on a dataset with one all-missing row and the default
threshold 1, the claim requires the row's score to be overwritten with the
missing marker; instead `score_subjects` raises `IntCastingNaNError` out of
`astype("uint8")` and produces no scored table at all. -/
theorem score_subjects_error_on_all_missing :
    score_subjects 1 [exRowAllNa] =
      Except.error "Cannot convert non-finite values (NA or inf) to integer" := rfl

/-- C2 witness: the specification's example row `[2, 4, 6, 8, NA]` with
`max_allowed_missing = 1`: the hypotheses hold, the call succeeds, and the
row's score is the floor of the mean (5) and is not masked. -/
theorem score_subjects_spec_witness :
    (∀ r ∈ [exRow2468], ∃ c ∈ r.qs, c.isSome = true) ∧
    (∀ r ∈ [exRow2468], ∀ q : ℚ, some q ∈ r.qs → 0 ≤ q ∧ q ≤ 255) ∧
    ∃ out, score_subjects 1 [exRow2468] = Except.ok out ∧ out.length = 1 ∧
      ∀ i r, [exRow2468].get? i = some r →
        ∃ m : ℚ, rowMean r.qs = some m ∧
          out.get? i = some (r,
            if (countNans r.qs : ℤ) > 1 then none
            else some (Int.toNat ⌊m⌋)) := by
  have h1 : ∀ r ∈ [exRow2468], ∃ c ∈ r.qs, c.isSome = true := by decide
  have h2 : ∀ r ∈ [exRow2468], ∀ q : ℚ, some q ∈ r.qs → 0 ≤ q ∧ q ≤ 255 := by
    intro r hr q hq
    rw [List.mem_singleton] at hr
    subst hr
    have hcases : q = 2 ∨ q = 4 ∨ q = 6 ∨ q = 8 := by
      simpa [exRow2468] using hq
    rcases hcases with rfl | rfl | rfl | rfl <;> norm_num
  exact ⟨h1, h2, score_subjects_spec 1 [exRow2468] h1 h2⟩

/-- C5 (code bug): with `maximal_nans_per_sub = 5` an all-missing row should
(per the claim and the docstring, which promises an NA score rather than a
failure) surface a missing score arising from the undefined mean; the code
instead raises `IntCastingNaNError` inside `astype("uint8")` before the
masking step is ever reached, for any threshold. -/
theorem score_subjects_max5_error_on_all_missing :
    score_subjects 5 [exRowAllNa] =
      Except.error "Cannot convert non-finite values (NA or inf) to integer" := rfl

/-- C6 counterexample: a dataset whose single row has a null email is not
filtered: `_validate_email` evaluates `"@" not in None`, which raises
`TypeError`, and `remove_rows_without_mail` propagates it instead of
removing the row. -/
theorem remove_rows_without_mail_raises :
    remove_rows_without_mail [exRowNullEmail] =
      Except.error "TypeError: argument of type NoneType is not iterable" := rfl

/-- C6 (amended): for every dataset containing a row whose email cell is
null, absent or a non-string value, email validation raises a `TypeError`
from the membership test on a non-string, and `remove_rows_without_mail`
propagates that exception instead of classifying the row as invalid and
removing it. -/
theorem remove_rows_without_mail_error_of_nonstring (ds : List Row)
    (h : ∃ r ∈ ds, r.email = EmailCell.null ∨ r.email = EmailCell.nonstr) :
    ∃ e, remove_rows_without_mail ds = Except.error e := by
  induction ds with
  | nil => simp at h
  | cons r t ih =>
    rcases h with ⟨r', hr', hbad⟩
    rcases List.mem_cons.mp hr' with rfl | hmem
    · have hve : ∃ e, validate_email_cell r'.email = Except.error e := by
        rcases hbad with hb | hb <;> rw [hb] <;> exact ⟨_, rfl⟩
      rcases hve with ⟨e, he⟩
      exact ⟨e, by simp only [remove_rows_without_mail, he]⟩
    · rcases ih ⟨r', hmem, hbad⟩ with ⟨e, he⟩
      cases hv : validate_email_cell r.email with
      | error e' => exact ⟨e', by simp only [remove_rows_without_mail, hv]⟩
      | ok b => exact ⟨e, by simp only [remove_rows_without_mail, hv, he]⟩

/-- C6 witness: the amended theorem applied to a one-row dataset whose email
cell is null. -/
theorem remove_rows_without_mail_error_witness :
    ∃ e, remove_rows_without_mail [exRowNoGender] = Except.error e :=
  remove_rows_without_mail_error_of_nonstring [exRowNoGender]
    ⟨exRowNoGender, List.mem_singleton.mpr rfl, Or.inl rfl⟩

theorem inBucket_eq_rowKey (k : String × Bool) (r : Row) :
    (r.age.isSome && inBucket k r) = decide (rowKey r = some k) := by
  obtain ⟨k1, k2⟩ := k
  rcases r with ⟨age, gender, email, qs⟩
  cases age with
  | none => cases gender <;> simp [inBucket, rowKey]
  | some a =>
    cases gender with
    | none => simp [inBucket, rowKey]
    | some g =>
      simp only [inBucket, rowKey, Option.isSome_some, Bool.true_and]
      by_cases hg : g = k1 <;> by_cases ha : a > 40 <;>
        cases k2 <;> simp [hg, ha, Prod.ext_iff]

theorem bucket_eq_filter_rowKey (ds : List Row) (k : String × Bool) :
    (dropna_age ds).filter (inBucket k) =
      ds.filter (fun r => decide (rowKey r = some k)) := by
  rw [dropna_age, List.filter_filter]
  apply List.filter_congr
  intro r hr
  rw [← inBucket_eq_rowKey]
  exact Bool.and_comm _ _

/-- C4 (amended): the aggregation result contains a group keyed
`(gender, age > 40)` exactly for the key combinations observed among the
rows with both demographics present — rows with a missing age, and (beyond
the claim's wording) also rows with a missing gender, are excluded — and
the group's row holds the five per-question skipna means over the rows of
that group.  The embedding is a pure function, so the underlying dataset is
unchanged. -/
theorem correlate_gender_age_spec (ds : List Row) (k : String × Bool) :
    ((correlate_gender_age ds k).isSome = true ↔ ∃ r ∈ ds, rowKey r = some k) ∧
    ∀ ms, correlate_gender_age ds k = some ms →
      ms.length = 5 ∧
      ∀ j, j < 5 →
        ms.get? j = some (meanList
          ((ds.filter (fun r => decide (rowKey r = some k))).filterMap
            (fun r => (r.qs.get? j).join))) := by
  have hmain : correlate_gender_age ds k =
      if (ds.filter (fun r => decide (rowKey r = some k))).isEmpty then none
      else some (bucketMeans (ds.filter (fun r => decide (rowKey r = some k)))) := by
    show (if ((dropna_age ds).filter (inBucket k)).isEmpty then none
        else some (bucketMeans ((dropna_age ds).filter (inBucket k)))) = _
    rw [bucket_eq_filter_rowKey]
  constructor
  · rw [hmain]
    by_cases he : ds.filter (fun r => decide (rowKey r = some k)) = []
    · rw [if_pos (by simp [he])]
      simp only [Option.isSome_none, Bool.false_eq_true, false_iff]
      rintro ⟨r, hr, hk⟩
      have hmem : r ∈ ds.filter (fun r => decide (rowKey r = some k)) :=
        List.mem_filter.mpr ⟨hr, by simp [hk]⟩
      rw [he] at hmem
      simp at hmem
    · rw [if_neg (by simp [he])]
      simp only [Option.isSome_some, true_iff]
      rcases List.exists_mem_of_ne_nil _ he with ⟨r, hr⟩
      rcases List.mem_filter.mp hr with ⟨hrds, hrk⟩
      exact ⟨r, hrds, of_decide_eq_true hrk⟩
  · intro ms hms
    rw [hmain] at hms
    by_cases he : ds.filter (fun r => decide (rowKey r = some k)) = []
    · rw [if_pos (by simp [he])] at hms
      cases hms
    · rw [if_neg (by simp [he])] at hms
      have hms' : ms = bucketMeans (ds.filter (fun r => decide (rowKey r = some k))) :=
        (Option.some_inj.mp hms).symm
      subst hms'
      constructor
      · simp [bucketMeans]
      · intro j hj
        rw [bucketMeans, List.get?_map, List.get?_range hj]
        rfl

/-- C4 counterexample: a row with age 50 (present) but missing gender is
nevertheless excluded from the aggregation — it belongs to no
`(gender, age > 40)` group — contradicting "excludes exactly the rows with
missing age". -/
theorem correlate_excludes_present_age_row :
    exRowNoGender.age.isSome = true ∧ ¬ ∃ k, inBucket k exRowNoGender = true := by
  refine ⟨rfl, ?_⟩
  rintro ⟨k, hk⟩
  simp [inBucket, exRowNoGender] at hk

/-- C4 witness: the specification's aggregator example — subjects
(gender "F", age 30) and (gender "F", age 50) — observes the bucket
`("F", true)`, so the grouped result contains it. -/
theorem correlate_gender_age_spec_witness :
    (correlate_gender_age [exRowF30, exRowF50] ("F", true)).isSome = true :=
  (correlate_gender_age_spec [exRowF30, exRowF50] ("F", true)).1.mpr
    ⟨exRowF50, by simp, by decide⟩

/-- C10: the grouping also silently excludes every row whose gender is
missing, even when its age is present: the grouped table is unchanged when
missing-gender rows are removed first, and a missing-gender row belongs to
no `(gender, age > 40)` group. -/
theorem correlate_gender_age_drops_missing_gender (ds : List Row) (k : String × Bool) :
    correlate_gender_age ds k =
      correlate_gender_age (ds.filter (fun r => r.gender.isSome)) k ∧
    ∀ r ∈ ds, r.gender = none → inBucket k r = false := by
  constructor
  · have hbuckets : (dropna_age (ds.filter (fun r => r.gender.isSome))).filter (inBucket k) =
        (dropna_age ds).filter (inBucket k) := by
      rw [bucket_eq_filter_rowKey, bucket_eq_filter_rowKey, List.filter_filter]
      apply List.filter_congr
      intro r hr
      rcases r with ⟨age, gender, email, qs⟩
      cases gender with
      | none => cases age <;> simp [rowKey]
      | some g => simp
    show (if ((dropna_age ds).filter (inBucket k)).isEmpty then none
        else some (bucketMeans ((dropna_age ds).filter (inBucket k)))) =
      (if ((dropna_age (ds.filter (fun r => r.gender.isSome))).filter (inBucket k)).isEmpty
        then none
        else some (bucketMeans
          ((dropna_age (ds.filter (fun r => r.gender.isSome))).filter (inBucket k))))
    rw [hbuckets]
  · intro r _ hg
    rcases r with ⟨age, gender, email, qs⟩
    cases hg
    cases age <;> rfl

/-- C10 witness: on the one-row dataset whose subject has age 50 and missing
gender, at the key `("F", true)`. -/
theorem correlate_drops_missing_gender_witness :
    correlate_gender_age [exRowNoGender] ("F", true) =
      correlate_gender_age ([exRowNoGender].filter (fun r => r.gender.isSome)) ("F", true) ∧
    inBucket ("F", true) exRowNoGender = false :=
  ⟨(correlate_gender_age_drops_missing_gender [exRowNoGender] ("F", true)).1,
   (correlate_gender_age_drops_missing_gender [exRowNoGender] ("F", true)).2
     exRowNoGender (List.mem_singleton.mpr rfl) rfl⟩

end HW5
